import Mathlib

/-!
Verification of the molecular-descriptors repository: point-mass inertia
tensor, center of mass, HOMO/LUMO selection, pairwise distance engine,
top-k selection, and the ingestion / database lookup routines.

Real numbers of the Python source are modelled by `ℚ`; Python exceptions
are modelled by `Option`/`Except` results.
-/

/-- Modelled from the spec: `orbital_calculations.py` is absent from `src/`.
Per spec §3/§4.1, a point mass is a mass together with a 3-vector of
coordinates. -/
structure PointMass where
  mass : ℚ
  coords : Fin 3 → ℚ

/-- Dot product of two 3-vectors. -/
def dot3 (r s : Fin 3 → ℚ) : ℚ :=
  r 0 * s 0 + r 1 * s 1 + r 2 * s 2

/-- Modelled from the spec: `orbital_calculations.py` is absent from `src/`.
Per spec §3, `T[i][j] = Σ_k m_k (δ_ij * r_k·r_k − r_k[i]*r_k[j])`, computed
about the origin of the supplied coordinate frame. -/
def calc_inertia_tensor (points : List PointMass) : Fin 3 → Fin 3 → ℚ :=
  fun i j =>
    (points.map (fun p =>
      p.mass * ((if i = j then dot3 p.coords p.coords else 0) - p.coords i * p.coords j))).sum

/-- Total mass of a list of point masses. -/
def totalMass (points : List PointMass) : ℚ :=
  (points.map (fun p => p.mass)).sum

/-- Modelled from the spec: `orbital_calculations.py` is absent from `src/`.
Per spec §4.2, returns `Σ(m_i * r_i) / Σ(m_i)`; the defined error raised on
zero total mass is modelled as `none`. -/
def calc_center_of_mass (points : List PointMass) : Option (Fin 3 → ℚ) :=
  if totalMass points = 0 then none
  else some (fun i => (points.map (fun p => p.mass * p.coords i)).sum / totalMass points)

/-- The four point masses at the corners of the unit square used by
`test_calc_inertia_tensor`. -/
def squareMasses : List PointMass :=
  [ ⟨1/4, ![0, 0, 0]⟩
  , ⟨1/4, ![0, 1, 0]⟩
  , ⟨1/4, ![1, 0, 0]⟩
  , ⟨1/4, ![1, 1, 0]⟩ ]

/-- The three collinear unit masses used by `test_calc_center_of_mass`. -/
def threeMasses : List PointMass :=
  [ ⟨1, ![0, 0, 0]⟩
  , ⟨1, ![-1, 0, 0]⟩
  , ⟨1, ![1, 0, 0]⟩ ]

/-- Quadratic form `vᵀ T v` of a 3×3 tensor, written out entrywise. -/
def quadForm (T : Fin 3 → Fin 3 → ℚ) (v : Fin 3 → ℚ) : ℚ :=
  v 0 * T 0 0 * v 0 + v 0 * T 0 1 * v 1 + v 0 * T 0 2 * v 2 +
  v 1 * T 1 0 * v 0 + v 1 * T 1 1 * v 1 + v 1 * T 1 2 * v 2 +
  v 2 * T 2 0 * v 0 + v 2 * T 2 1 * v 1 + v 2 * T 2 2 * v 2

/-- Trace of a 3×3 tensor. -/
def traceOf (T : Fin 3 → Fin 3 → ℚ) : ℚ := T 0 0 + T 1 1 + T 2 2

/-- Translate every point of a configuration by the vector `t`. -/
def translatePoints (t : Fin 3 → ℚ) (points : List PointMass) : List PointMass :=
  points.map (fun p => ⟨p.mass, fun i => p.coords i + t i⟩)

/-- Modelled from the spec: `orbital_calculations.py` is absent from `src/`.
Per spec §3, an atomic contribution record carries the data from which its
scalar weight is computed; the record's normalized share of the orbital's
eigenvalue is kept here. -/
structure AtomicContribution where
  fraction : ℚ

/-- Modelled from the spec: `orbital_calculations.py` is absent from `src/`.
Per spec §3, a molecular orbital has an eigenvalue (orbital energy), an
occupancy flag and its atomic contributions. -/
structure MolecularOrbital where
  eigenvalue : ℚ
  occupied : Bool
  atomic_contributions : List AtomicContribution

/-- Modelled from the spec: `orbital_calculations.py` and the anthracene
fixture file are absent from `src/`. Per spec §4.3, `calc_atomic_weight`
maps one atomic contribution record to the scalar share of the orbital's
eigenvalue that it carries. -/
def calc_atomic_weight (mo : MolecularOrbital) (c : AtomicContribution) : ℚ :=
  mo.eigenvalue * c.fraction

/-- The pair stream of `itertools.combinations(xs, 2)`: every pair
`(xs[i], xs[j])` with `i < j`, first components in list order. -/
def combinations2 {A : Type} : List A → List (A × A)
  | [] => []
  | x :: xs => (xs.map (fun y => (x, y))) ++ combinations2 xs

/-- The distance triples built by `sort_by_distance`,
`deviation_difference_vs_distance` and `distance_distribution`: one
`(distance, row_i, row_j)` triple per unordered pair of rows. -/
def pairDistances {A : Type} (d : A → A → ℚ) (xs : List A) : List (ℚ × A × A) :=
  (combinations2 xs).map (fun p => (d p.1 p.2, p.1, p.2))

/-- `sort_by_distance` of `similarity.py`: all pair-distance triples,
sorted by distance, ascending by default and descending on request. -/
def sort_by_distance {A : Type} (d : A → A → ℚ) (descending : Bool)
    (xs : List A) : List (ℚ × A × A) :=
  if descending then
    (pairDistances d xs).insertionSort (fun a b => b.1 ≤ a.1)
  else
    (pairDistances d xs).insertionSort (fun a b => a.1 ≤ b.1)

/-- Value of a decimal digit character, `none` for non-digits. -/
def digitVal (c : Char) : Option ℕ :=
  if '0' ≤ c ∧ c ≤ '9' then some (c.toNat - '0'.toNat) else none

/-- Parse a non-empty run of decimal digits, accumulating left to right. -/
def parseNatAux : List Char → ℕ → Option ℕ
  | [], acc => some acc
  | c :: cs, acc =>
    match digitVal c with
    | none => none
    | some d => parseNatAux cs (acc * 10 + d)

/-- Parse a string as a decimal orbital index; `none` when the string is
not a string-encoded integer. -/
def parseNatKey (s : String) : Option ℕ :=
  if s.data = [] then none else parseNatAux s.data 0

/-- Largest element of a list of naturals, `none` on the empty list. -/
def listMax : List ℕ → Option ℕ
  | [] => none
  | x :: xs =>
    match listMax xs with
    | none => some x
    | some m => some (max x m)

/-- Smallest element of a list of naturals, `none` on the empty list. -/
def listMin : List ℕ → Option ℕ
  | [] => none
  | x :: xs =>
    match listMin xs with
    | none => some x
    | some m => some (min x m)

/-- The integer-keyed entries of an orbital JSON mapping: each entry is the
parsed index paired with the record's occupancy flag; entries whose key is
not a string-encoded integer are skipped. -/
def intEntries (m : List (String × Bool)) : List (ℕ × Bool) :=
  m.filterMap (fun p => (parseNatKey p.1).map (fun n => (n, p.2)))

/-- Indices of occupied orbitals in the mapping. -/
def occupiedKeys (m : List (String × Bool)) : List ℕ :=
  ((intEntries m).filter (fun e => e.2)).map Prod.fst

/-- Indices of unoccupied orbitals in the mapping. -/
def unoccupiedKeys (m : List (String × Bool)) : List ℕ :=
  ((intEntries m).filter (fun e => !e.2)).map Prod.fst

/-- Modelled from the spec: `orbital_calculations.py` is absent from `src/`.
Per spec §3, HOMO is the highest integer key whose record is occupied and
LUMO is the lowest integer key greater than HOMO whose record is
unoccupied; Python's `False` result for a missing LUMO is modelled as
`none`. A mapping is modelled as its list of (key, occupied) entries. -/
def homoLumoNumbersFromJson (m : List (String × Bool)) : Option ℕ × Option ℕ :=
  match listMax (occupiedKeys m) with
  | none => (none, none)
  | some h => (some h, listMin ((unoccupiedKeys m).filter (fun n => decide (h < n))))

/-- A concrete molecular orbital with normalized atomic shares, standing in
for one orbital of the reference fixture. -/
def exampleOrbital : MolecularOrbital :=
  ⟨-(3/10), true, [⟨1/2⟩, ⟨1/4⟩, ⟨1/4⟩]⟩

/-- Comparison of stream items by a scalar key, ascending. -/
def keyLE {T B : Type} [LinearOrder B] (key : T → B) (a b : T) : Prop :=
  key a ≤ key b

/-- Comparison of stream items by a scalar key, descending. -/
def keyGE {T B : Type} [LinearOrder B] (key : T → B) (a b : T) : Prop :=
  key b ≤ key a

instance {T B : Type} [LinearOrder B] (key : T → B) : DecidableRel (keyLE key) :=
  fun a b => inferInstanceAs (Decidable (key a ≤ key b))

instance {T B : Type} [LinearOrder B] (key : T → B) : DecidableRel (keyGE key) :=
  fun a b => inferInstanceAs (Decidable (key b ≤ key a))

instance {T B : Type} [LinearOrder B] (key : T → B) : IsTotal T (keyLE key) :=
  ⟨fun a b => le_total (key a) (key b)⟩

instance {T B : Type} [LinearOrder B] (key : T → B) : IsTotal T (keyGE key) :=
  ⟨fun a b => le_total (key b) (key a)⟩

instance {T B : Type} [LinearOrder B] (key : T → B) : IsTrans T (keyLE key) :=
  ⟨fun _ _ _ hab hbc => le_trans hab hbc⟩

instance {T B : Type} [LinearOrder B] (key : T → B) : IsTrans T (keyGE key) :=
  ⟨fun _ _ _ hab hbc => le_trans hbc hab⟩

/-- One streaming pass keeping a sorted buffer of at most `k` best items
under the relation `r`. -/
def streamTopK {T : Type} (r : T → T → Prop) [DecidableRel r] (k : ℕ)
    (xs : List T) : List T :=
  xs.foldl (fun buf x => (buf.orderedInsert r x).take k) []

/-- Insert every stream item into a sorted list (left fold of ordered
insertion); the unbounded companion of `streamTopK`. -/
def insertAll {T : Type} (r : T → T → Prop) [DecidableRel r] (xs : List T) : List T :=
  xs.foldl (fun buf x => buf.orderedInsert r x) []

/-- Modelled from the spec: `algorithm_testing.py` (the `algo` selector
called by `get_most_least_similar`) is absent from `src/`. Per spec §4.5,
`algo` makes a single pass over the triples keeping two bounded buffers of
size `k` and returns `(mostDistant, leastDistant)` by the scalar key; ties
are broken deterministically. -/
def algo {T B : Type} [LinearOrder B] (key : T → B) (k : ℕ) (xs : List T) :
    List T × List T :=
  (streamTopK (keyGE key) k xs, streamTopK (keyLE key) k xs)

/-- `DatasetItem` of `database.py`: one row of the dataset table, in the
fixed positional schema; the fingerprint bit-vector is a list of bits and
the serialized orbital blob is an optional string (NULL as `none`). -/
structure DatasetItem where
  mol_id : String
  E_pm7 : ℚ
  E_blyp : ℚ
  smiles : String
  fingerprint : List Bool
  serialized_molecular_orbital : Option String
deriving DecidableEq

/-- The exceptions the ingestion loop of `database.main` can raise. -/
inductive IngestError where
  | pm7Exhausted : IngestError
  | mismatch (blyp_mol_id pm7_mol_id : String) : IngestError
  | missingSmiles (mol_id : String) : IngestError
  | badFingerprint (mol_id : String) : IngestError
deriving DecidableEq

/-- Environment of `database.main`. `smilesDict` is the mapping read from
the SMILES file (`none` models a KeyError). Modelled from the spec, since
`util.py` and `orbital_calculations.py` are absent from `src/`:
`fingerprintFromSmiles` stands for `fingerprint_from_smiles` (`none`
models a non-`ExplicitBitVect` result), `orbitalFor` stands for
`MolecularOrbital.fromJsonFile(..., HOMO).serialize()` (`Except.error`
models its not-found failure: orbital file absent or index missing), and
`conv` stands for `atomic_units2eV`. -/
structure IngestEnv where
  smilesDict : String → Option String
  fingerprintFromSmiles : String → Option (List Bool)
  orbitalFor : String → Except String String
  conv : ℚ → ℚ

/-- The row loop of `database.main` (lines 227-256): walk the BLYP rows
with the parallel PM7 rows, abort on a molecule-id mismatch, look up
SMILES and fingerprint, and catch only the not-found failure of the
orbital load, substituting a NULL descriptor for that molecule and
continuing with the remaining rows. -/
def ingestRows (env : IngestEnv) :
    List (String × ℚ) → List (String × ℚ) → Except IngestError (List DatasetItem)
  | [], _ => .ok []
  | _ :: _, [] => .error .pm7Exhausted
  | (blyp_mol_id, E_blyp) :: bs, (pm7_mol_id, E_pm7) :: ps =>
    if blyp_mol_id ≠ pm7_mol_id then .error (.mismatch blyp_mol_id pm7_mol_id)
    else
      match env.smilesDict blyp_mol_id with
      | none => .error (.missingSmiles blyp_mol_id)
      | some smiles =>
        match env.fingerprintFromSmiles smiles with
        | none => .error (.badFingerprint blyp_mol_id)
        | some fp =>
          let mo : Option String :=
            match env.orbitalFor blyp_mol_id with
            | .ok s => some s
            | .error _ => none
          match ingestRows env bs ps with
          | .error e => .error e
          | .ok rest =>
            .ok (⟨blyp_mol_id, env.conv E_pm7, env.conv E_blyp, smiles, fp, mo⟩ :: rest)

/-- `get_row_from_mol_id` of `database.py`: filter the table on the id and
return `fetch[0]`; the uncaught IndexError on an empty result is modelled
as `none`. -/
def get_row_from_mol_id (table : List DatasetItem) (mol_id : String) :
    Option DatasetItem :=
  (table.filter (fun r => decide (r.mol_id = mol_id))).head?

/-- The `len(fetch) > 1` duplicate-row warning printed by
`get_row_from_mol_id`. -/
def duplicate_warning (table : List DatasetItem) (mol_id : String) : Bool :=
  decide (1 < (table.filter (fun r => decide (r.mol_id = mol_id))).length)

/-- `get_dE_from_mol_id` of `database.py`: `E_blyp - E_pm7` of the row
returned by `get_row_from_mol_id`, propagating its failure. -/
def get_dE_from_mol_id (table : List DatasetItem) (mol_id : String) : Option ℚ :=
  (get_row_from_mol_id table mol_id).map (fun row => row.E_blyp - row.E_pm7)

/-- A concrete ingestion environment in which molecule "A" has no orbital
file and every other molecule has one. -/
def exampleEnv : IngestEnv :=
  ⟨fun s => some s, fun _ => some [true],
   fun mol_id => if mol_id = "A" then .error "file not found" else .ok "mo-blob",
   fun x => x⟩

/-- A concrete dataset table with a duplicated molecule id. -/
def exampleTable : List DatasetItem :=
  [ ⟨"ZINC1", 1, 2, "C", [true], none⟩
  , ⟨"ZINC1", 3, 5, "CC", [false], some "mo-blob"⟩ ]

/-- C1: for the four point masses of mass 1/4 at the corners of the unit
square in the z=0 plane, `calc_inertia_tensor` about the origin returns
exactly the matrix [[1/2, -1/4, 0], [-1/4, 1/2, 0], [0, 0, 1]]. -/
theorem inertia_tensor_unit_square :
    calc_inertia_tensor squareMasses 0 0 = 1/2 ∧
    calc_inertia_tensor squareMasses 0 1 = -(1/4) ∧
    calc_inertia_tensor squareMasses 0 2 = 0 ∧
    calc_inertia_tensor squareMasses 1 0 = -(1/4) ∧
    calc_inertia_tensor squareMasses 1 1 = 1/2 ∧
    calc_inertia_tensor squareMasses 1 2 = 0 ∧
    calc_inertia_tensor squareMasses 2 0 = 0 ∧
    calc_inertia_tensor squareMasses 2 1 = 0 ∧
    calc_inertia_tensor squareMasses 2 2 = 1 := by
  refine ⟨?_, ?_, ?_, ?_, ?_, ?_, ?_, ?_, ?_⟩ <;>
    norm_num [calc_inertia_tensor, squareMasses, dot3, Matrix.cons_val_zero,
      Matrix.cons_val_one, Matrix.cons_val_two, Matrix.head_cons, Matrix.vecTail,
      Matrix.vecHead, Fin.ext_iff]

theorem sum_map_sub (l : List PointMass) (f g : PointMass → ℚ) :
    (l.map (fun x => f x - g x)).sum = (l.map f).sum - (l.map g).sum := by
  induction l with
  | nil => simp
  | cons x xs ih => simp [ih]; ring

/-- C2: for any list of point masses whose total mass is non-zero,
`calc_center_of_mass` returns the mass-weighted mean (characterized by the
vanishing of mass-weighted deviations); when the total mass is zero it
returns the defined error value `none`; and the three collinear unit
masses of the reference test have center of mass `(0,0,0)`. -/
theorem center_of_mass_spec (points : List PointMass) :
    (totalMass points = 0 → calc_center_of_mass points = none) ∧
    (totalMass points ≠ 0 → ∃ c, calc_center_of_mass points = some c ∧
      ∀ i, (points.map (fun p => p.mass * (p.coords i - c i))).sum = 0) ∧
    calc_center_of_mass threeMasses = some (fun _ => 0) := by
  refine ⟨fun h => by simp [calc_center_of_mass, h], fun h => ?_, ?_⟩
  · refine ⟨fun i => (points.map (fun p => p.mass * p.coords i)).sum / totalMass points,
      by simp [calc_center_of_mass, h], fun i => ?_⟩
    simp only [mul_sub]
    rw [sum_map_sub, List.sum_map_mul_right, totalMass]
    have hM : (points.map (fun p => p.mass)).sum ≠ 0 := by simpa [totalMass] using h
    field_simp
  · have h3 : totalMass threeMasses = 3 := by norm_num [totalMass, threeMasses]
    rw [calc_center_of_mass, h3]
    rw [if_neg (by norm_num)]
    refine congrArg some (funext fun i => ?_)
    fin_cases i <;>
      norm_num [threeMasses, Matrix.cons_val_zero, Matrix.cons_val_one,
        Matrix.cons_val_two, Matrix.head_cons, Matrix.vecTail, Matrix.vecHead]

/-- Witness for C2 at the concrete three-point configuration. -/
theorem center_of_mass_spec_witness :
    (totalMass threeMasses = 0 → calc_center_of_mass threeMasses = none) ∧
    (totalMass threeMasses ≠ 0 → ∃ c, calc_center_of_mass threeMasses = some c ∧
      ∀ i, (threeMasses.map (fun p => p.mass * (p.coords i - c i))).sum = 0) ∧
    calc_center_of_mass threeMasses = some (fun _ => 0) :=
  center_of_mass_spec threeMasses

theorem tensor_cons (p : PointMass) (pts : List PointMass) (i j : Fin 3) :
    calc_inertia_tensor (p :: pts) i j =
      p.mass * ((if i = j then dot3 p.coords p.coords else 0) - p.coords i * p.coords j) +
      calc_inertia_tensor pts i j := by
  simp [calc_inertia_tensor]

theorem quadForm_tensor_cons (p : PointMass) (pts : List PointMass) (v : Fin 3 → ℚ) :
    quadForm (calc_inertia_tensor (p :: pts)) v =
      p.mass * (dot3 v v * dot3 p.coords p.coords - dot3 v p.coords ^ 2) +
      quadForm (calc_inertia_tensor pts) v := by
  simp only [quadForm, tensor_cons, dot3]
  norm_num [Fin.ext_iff]
  ring

theorem lagrange_nonneg (v r : Fin 3 → ℚ) :
    0 ≤ dot3 v v * dot3 r r - dot3 v r ^ 2 := by
  simp only [dot3]
  nlinarith [sq_nonneg (v 0 * r 1 - v 1 * r 0), sq_nonneg (v 0 * r 2 - v 2 * r 0),
    sq_nonneg (v 1 * r 2 - v 2 * r 1)]

theorem quadForm_tensor_nonneg (pts : List PointMass)
    (hm : ∀ p ∈ pts, 0 ≤ p.mass) (v : Fin 3 → ℚ) :
    0 ≤ quadForm (calc_inertia_tensor pts) v := by
  induction pts with
  | nil => simp [quadForm, calc_inertia_tensor]
  | cons p ps ih =>
    rw [quadForm_tensor_cons]
    have h1 : 0 ≤ p.mass := hm p (by simp)
    have h2 : 0 ≤ quadForm (calc_inertia_tensor ps) v :=
      ih (fun q hq => hm q (by simp [hq]))
    have h3 := lagrange_nonneg v p.coords
    nlinarith

theorem traceOf_tensor_cons (p : PointMass) (pts : List PointMass) :
    traceOf (calc_inertia_tensor (p :: pts)) =
      p.mass * (2 * dot3 p.coords p.coords) + traceOf (calc_inertia_tensor pts) := by
  simp only [traceOf, tensor_cons, dot3]
  norm_num [Fin.ext_iff]
  ring

theorem traceOf_tensor_nonneg (pts : List PointMass)
    (hm : ∀ p ∈ pts, 0 ≤ p.mass) :
    0 ≤ traceOf (calc_inertia_tensor pts) := by
  induction pts with
  | nil => simp [traceOf, calc_inertia_tensor]
  | cons p ps ih =>
    rw [traceOf_tensor_cons]
    have h1 : 0 ≤ p.mass := hm p (by simp)
    have h2 : 0 ≤ traceOf (calc_inertia_tensor ps) :=
      ih (fun q hq => hm q (by simp [hq]))
    have h3 : 0 ≤ dot3 p.coords p.coords := by
      simp only [dot3]
      nlinarith [sq_nonneg (p.coords 0), sq_nonneg (p.coords 1), sq_nonneg (p.coords 2)]
    nlinarith

/-- C7: the inertia tensor of any list of point masses (with positive
masses, per the data model) is symmetric, positive semi-definite and has
non-negative trace; it is invariant under permutation of the input list;
and it is computed about the origin of the supplied coordinate frame, not
recentered on the center of mass (witnessed by the unit-square
configuration, whose tensor changes when the configuration is translated
onto its center of mass). -/
theorem inertia_tensor_invariants (points : List PointMass)
    (hm : ∀ p ∈ points, 0 < p.mass) :
    (∀ i j, calc_inertia_tensor points i j = calc_inertia_tensor points j i) ∧
    (∀ v, 0 ≤ quadForm (calc_inertia_tensor points) v) ∧
    0 ≤ traceOf (calc_inertia_tensor points) ∧
    (∀ points', points.Perm points' →
      calc_inertia_tensor points = calc_inertia_tensor points') ∧
    calc_inertia_tensor squareMasses ≠
      calc_inertia_tensor (translatePoints ![-(1/2), -(1/2), 0] squareMasses) := by
  have hm' : ∀ p ∈ points, 0 ≤ p.mass := fun p hp => (hm p hp).le
  refine ⟨?_, quadForm_tensor_nonneg points hm', traceOf_tensor_nonneg points hm', ?_, ?_⟩
  · intro i j
    unfold calc_inertia_tensor
    congr 1
    apply List.map_congr_left
    intro p _
    rcases eq_or_ne i j with h | h
    · subst h; ring
    · rw [if_neg h, if_neg (Ne.symm h)]; ring
  · intro points' hp
    funext i j
    exact List.Perm.sum_eq (hp.map _)
  · intro heq
    have h01 := congrFun (congrFun heq 0) 1
    rw [inertia_tensor_unit_square.2.1] at h01
    have : calc_inertia_tensor (translatePoints ![-(1/2), -(1/2), 0] squareMasses) 0 1 = 0 := by
      norm_num [calc_inertia_tensor, translatePoints, squareMasses, dot3,
        Matrix.cons_val_zero, Matrix.cons_val_one, Matrix.cons_val_two,
        Matrix.head_cons, Matrix.vecTail, Matrix.vecHead, Fin.ext_iff]
    rw [this] at h01
    norm_num at h01

/-- Witness for C7 at the unit-square configuration. -/
theorem inertia_tensor_invariants_witness :
    (∀ i j, calc_inertia_tensor squareMasses i j = calc_inertia_tensor squareMasses j i) ∧
    (∀ v, 0 ≤ quadForm (calc_inertia_tensor squareMasses) v) ∧
    0 ≤ traceOf (calc_inertia_tensor squareMasses) ∧
    (∀ points', squareMasses.Perm points' →
      calc_inertia_tensor squareMasses = calc_inertia_tensor points') ∧
    calc_inertia_tensor squareMasses ≠
      calc_inertia_tensor (translatePoints ![-(1/2), -(1/2), 0] squareMasses) :=
  inertia_tensor_invariants squareMasses (by
    intro p hp
    simp only [squareMasses, List.mem_cons, List.mem_singleton] at hp
    rcases hp with h | h | h | h | h <;> first | (subst h; norm_num) | exact absurd h (by simp))

/-- C4: for every molecular orbital whose atomic contributions carry
normalized shares (summing to 1, as for each orbital of the reference
fixture), the sum of `calc_atomic_weight` over all atomic contributions
equals the orbital's stored eigenvalue. -/
theorem atomic_weight_sum_eigenvalue (mo : MolecularOrbital)
    (hnorm : (mo.atomic_contributions.map (fun c => c.fraction)).sum = 1) :
    (mo.atomic_contributions.map (calc_atomic_weight mo)).sum = mo.eigenvalue := by
  unfold calc_atomic_weight
  rw [List.sum_map_mul_left, hnorm, mul_one]

/-- Witness for C4 at a concrete normalized orbital. -/
theorem atomic_weight_sum_eigenvalue_witness :
    ((exampleOrbital.atomic_contributions.map (fun c => c.fraction)).sum = 1) ∧
    ((exampleOrbital.atomic_contributions.map
        (calc_atomic_weight exampleOrbital)).sum = exampleOrbital.eigenvalue) :=
  ⟨by norm_num [exampleOrbital], atomic_weight_sum_eigenvalue _ (by norm_num [exampleOrbital])⟩

theorem listMax_eq_none {l : List ℕ} : listMax l = none ↔ l = [] := by
  cases l with
  | nil => simp [listMax]
  | cons x xs =>
    simp only [listMax]
    cases listMax xs <;> simp

theorem listMax_mem_le {l : List ℕ} {m : ℕ} (h : listMax l = some m) :
    m ∈ l ∧ ∀ b ∈ l, b ≤ m := by
  induction l generalizing m with
  | nil => simp [listMax] at h
  | cons x xs ih =>
    simp only [listMax] at h
    cases hx : listMax xs with
    | none =>
      rw [hx] at h
      have hnil : xs = [] := listMax_eq_none.mp hx
      subst hnil
      simp at h
      simp [h]
    | some m0 =>
      rw [hx] at h
      have hinj : max x m0 = m := by simpa using h
      obtain ⟨hmem0, hle0⟩ := ih hx
      constructor
      · rcases max_choice x m0 with hc | hc <;> rw [← hinj, hc]
        · simp
        · simp [hmem0]
      · intro b hb
        rcases List.mem_cons.mp hb with hb | hb
        · subst hb; omega
        · have := hle0 b hb
          omega

theorem listMax_iff {l : List ℕ} {m : ℕ} :
    listMax l = some m ↔ m ∈ l ∧ ∀ b ∈ l, b ≤ m := by
  refine ⟨listMax_mem_le, fun ⟨hmem, hle⟩ => ?_⟩
  cases hx : listMax l with
  | none =>
    rw [listMax_eq_none.mp hx] at hmem
    simp at hmem
  | some m0 =>
    obtain ⟨hmem0, hle0⟩ := listMax_mem_le hx
    have h1 : m0 ≤ m := hle m0 hmem0
    have h2 : m ≤ m0 := hle0 m hmem
    simp only [Option.some.injEq]
    omega

theorem listMin_eq_none {l : List ℕ} : listMin l = none ↔ l = [] := by
  cases l with
  | nil => simp [listMin]
  | cons x xs =>
    simp only [listMin]
    cases listMin xs <;> simp

theorem listMin_mem_le {l : List ℕ} {m : ℕ} (h : listMin l = some m) :
    m ∈ l ∧ ∀ b ∈ l, m ≤ b := by
  induction l generalizing m with
  | nil => simp [listMin] at h
  | cons x xs ih =>
    simp only [listMin] at h
    cases hx : listMin xs with
    | none =>
      rw [hx] at h
      have hnil : xs = [] := listMin_eq_none.mp hx
      subst hnil
      simp at h
      simp [h]
    | some m0 =>
      rw [hx] at h
      have hinj : min x m0 = m := by simpa using h
      obtain ⟨hmem0, hle0⟩ := ih hx
      constructor
      · rcases min_choice x m0 with hc | hc <;> rw [← hinj, hc]
        · simp
        · simp [hmem0]
      · intro b hb
        rcases List.mem_cons.mp hb with hb | hb
        · subst hb; omega
        · have := hle0 b hb
          omega

theorem listMin_iff {l : List ℕ} {m : ℕ} :
    listMin l = some m ↔ m ∈ l ∧ ∀ b ∈ l, m ≤ b := by
  refine ⟨listMin_mem_le, fun ⟨hmem, hle⟩ => ?_⟩
  cases hx : listMin l with
  | none =>
    rw [listMin_eq_none.mp hx] at hmem
    simp at hmem
  | some m0 =>
    obtain ⟨hmem0, hle0⟩ := listMin_mem_le hx
    have h1 : m ≤ m0 := hle m0 hmem0
    have h2 : m0 ≤ m := hle0 m hmem
    simp only [Option.some.injEq]
    omega

theorem listMax_perm {l l' : List ℕ} (hp : l.Perm l') : listMax l = listMax l' := by
  cases hx : listMax l with
  | none =>
    have : l' = [] := by
      have := listMax_eq_none.mp hx
      subst this
      exact hp.nil_eq.symm
    simp [this, listMax]
  | some m =>
    obtain ⟨hmem, hle⟩ := listMax_mem_le hx
    exact (listMax_iff.mpr ⟨hp.mem_iff.mp hmem, fun b hb => hle b (hp.mem_iff.mpr hb)⟩).symm

theorem listMin_perm {l l' : List ℕ} (hp : l.Perm l') : listMin l = listMin l' := by
  cases hx : listMin l with
  | none =>
    have : l' = [] := by
      have := listMin_eq_none.mp hx
      subst this
      exact hp.nil_eq.symm
    simp [this, listMin]
  | some m =>
    obtain ⟨hmem, hle⟩ := listMin_mem_le hx
    exact (listMin_iff.mpr ⟨hp.mem_iff.mp hmem, fun b hb => hle b (hp.mem_iff.mpr hb)⟩).symm

theorem occupiedKeys_perm {m m' : List (String × Bool)} (hp : m.Perm m') :
    (occupiedKeys m).Perm (occupiedKeys m') :=
  ((hp.filterMap _).filter _).map _

theorem unoccupiedKeys_perm {m m' : List (String × Bool)} (hp : m.Perm m') :
    (unoccupiedKeys m).Perm (unoccupiedKeys m') :=
  ((hp.filterMap _).filter _).map _

/-- C3: `homoLumoNumbersFromJson` skips non-integer keys and returns HOMO =
the highest integer key marked occupied, LUMO = the lowest integer key
above HOMO marked unoccupied (`none`, modelling Python's `False`, when no
such key exists); the result is independent of the order of the mapping's
entries. -/
theorem homoLumoNumbersFromJson_spec (m m' : List (String × Bool)) (hp : m.Perm m') :
    homoLumoNumbersFromJson m = homoLumoNumbersFromJson m' ∧
    (occupiedKeys m ≠ [] → ∃ h lu, homoLumoNumbersFromJson m = (some h, lu)) ∧
    (∀ h lu, homoLumoNumbersFromJson m = (some h, lu) →
      (h ∈ occupiedKeys m ∧ ∀ b ∈ occupiedKeys m, b ≤ h) ∧
      (∀ l0, lu = some l0 →
        l0 ∈ unoccupiedKeys m ∧ h < l0 ∧ ∀ b ∈ unoccupiedKeys m, h < b → l0 ≤ b) ∧
      (lu = none → ∀ b ∈ unoccupiedKeys m, ¬ h < b)) := by
  refine ⟨?_, ?_, ?_⟩
  · unfold homoLumoNumbersFromJson
    rw [listMax_perm (occupiedKeys_perm hp)]
    cases listMax (occupiedKeys m') with
    | none => rfl
    | some h =>
      dsimp only
      rw [listMin_perm ((unoccupiedKeys_perm hp).filter _)]
  · intro hne
    cases hx : listMax (occupiedKeys m) with
    | none => exact absurd (listMax_eq_none.mp hx) hne
    | some h =>
      exact ⟨h, _, by rw [homoLumoNumbersFromJson, hx]⟩
  · intro h lu heq
    unfold homoLumoNumbersFromJson at heq
    cases hx : listMax (occupiedKeys m) with
    | none => rw [hx] at heq; simp at heq
    | some h0 =>
      rw [hx] at heq
      obtain ⟨hh, hlu⟩ : h0 = h ∧
          listMin ((unoccupiedKeys m).filter (fun n => decide (h0 < n))) = lu := by
        constructor
        · have := congrArg Prod.fst heq
          simpa using this
        · have := congrArg Prod.snd heq
          simpa using this
      subst hh
      refine ⟨listMax_mem_le hx, fun l0 hl0 => ?_, fun hnone => ?_⟩
      · rw [hl0] at hlu
        obtain ⟨hmem, hle⟩ := listMin_mem_le hlu
        have hmem' := List.mem_filter.mp hmem
        refine ⟨hmem'.1, by simpa using hmem'.2, fun b hb hgt => ?_⟩
        exact hle b (List.mem_filter.mpr ⟨hb, by simpa using hgt⟩)
      · rw [hnone] at hlu
        have hfil : (unoccupiedKeys m).filter (fun n => decide (h0 < n)) = [] :=
          listMin_eq_none.mp hlu
        intro b hb hgt
        have : b ∈ ((unoccupiedKeys m).filter (fun n => decide (h0 < n))) :=
          List.mem_filter.mpr ⟨hb, by simpa using hgt⟩
        rw [hfil] at this
        simp at this

/-- Witness for C3 at the mapping of the fourth reference test, with a
permuted copy. -/
theorem homoLumoNumbersFromJson_spec_witness :
    (homoLumoNumbersFromJson [("24", true), ("atomic_coords", false), ("56", true)] =
      homoLumoNumbersFromJson [("56", true), ("24", true), ("atomic_coords", false)]) ∧
    (occupiedKeys [("24", true), ("atomic_coords", false), ("56", true)] ≠ [] →
      ∃ h lu, homoLumoNumbersFromJson
        [("24", true), ("atomic_coords", false), ("56", true)] = (some h, lu)) ∧
    (∀ h lu, homoLumoNumbersFromJson
        [("24", true), ("atomic_coords", false), ("56", true)] = (some h, lu) →
      (h ∈ occupiedKeys [("24", true), ("atomic_coords", false), ("56", true)] ∧
        ∀ b ∈ occupiedKeys [("24", true), ("atomic_coords", false), ("56", true)], b ≤ h) ∧
      (∀ l0, lu = some l0 →
        l0 ∈ unoccupiedKeys [("24", true), ("atomic_coords", false), ("56", true)] ∧
        h < l0 ∧
        ∀ b ∈ unoccupiedKeys [("24", true), ("atomic_coords", false), ("56", true)],
          h < b → l0 ≤ b) ∧
      (lu = none →
        ∀ b ∈ unoccupiedKeys [("24", true), ("atomic_coords", false), ("56", true)],
          ¬ h < b)) :=
  homoLumoNumbersFromJson_spec _ _ (by decide)

/-- The four concrete HOMO/LUMO examples of the reference test
`test_homo_lumo_numbers_from_json`, evaluated on the model. -/
theorem homoLumo_reference_examples :
    homoLumoNumbersFromJson [("1", true), ("2", false)] = (some 1, some 2) ∧
    homoLumoNumbersFromJson [("24", true), ("atomic_coords", false), ("56", false)] =
      (some 24, some 56) ∧
    homoLumoNumbersFromJson [("56", false), ("atomic_coords", false), ("55", true)] =
      (some 55, some 56) ∧
    homoLumoNumbersFromJson [("24", true), ("atomic_coords", false), ("56", true)] =
      (some 56, none) := by
  refine ⟨?_, ?_, ?_, ?_⟩ <;> decide

theorem combinations2_length {A : Type} (xs : List A) :
    2 * (combinations2 xs).length = xs.length * (xs.length - 1) := by
  induction xs with
  | nil => simp [combinations2]
  | cons x xs ih =>
    simp only [combinations2, List.length_append, List.length_map, List.length_cons,
      Nat.add_sub_cancel]
    have hn : xs.length * (xs.length - 1) + 2 * xs.length = (xs.length + 1) * xs.length := by
      cases xs.length with
      | zero => simp
      | succ m => simp only [Nat.succ_sub_one]; ring
    linarith [ih, hn]

theorem combinations2_mem {A : Type} {xs : List A} {p : A × A}
    (h : p ∈ combinations2 xs) : p.1 ∈ xs ∧ p.2 ∈ xs := by
  induction xs with
  | nil => simp [combinations2] at h
  | cons z rest ih =>
    simp only [combinations2, List.mem_append, List.mem_map] at h
    rcases h with ⟨w, hw, hp⟩ | h
    · subst hp
      exact ⟨by simp, by simp [hw]⟩
    · obtain ⟨h1, h2⟩ := ih h
      exact ⟨by simp [h1], by simp [h2]⟩

theorem countP_eq_count {A : Type} [DecidableEq A] (l : List A) (y : A) :
    l.countP (fun w => decide (w = y)) = l.count y := by
  induction l with
  | nil => simp
  | cons w l ih =>
    simp only [List.countP_cons, List.count_cons, ih]
    by_cases h : w = y <;> simp [h]

theorem combinations2_count {A : Type} [DecidableEq A] {xs : List A} (hnd : xs.Nodup)
    {x y : A} (hx : x ∈ xs) (hy : y ∈ xs) (hne : x ≠ y) :
    (combinations2 xs).countP
      (fun p => decide ((p.1 = x ∧ p.2 = y) ∨ (p.1 = y ∧ p.2 = x))) = 1 := by
  induction xs with
  | nil => simp at hx
  | cons z rest ih =>
    have hndr : rest.Nodup := hnd.of_cons
    have hznr : z ∉ rest := (List.nodup_cons.mp hnd).1
    rw [combinations2, List.countP_append, List.countP_map]
    rcases List.mem_cons.mp hx with hxz | hxr
    · subst hxz
      have hyr : y ∈ rest := by
        rcases List.mem_cons.mp hy with h | h
        · exact absurd h.symm hne
        · exact h
      have hmap : rest.countP
          ((fun p : A × A => decide ((p.1 = x ∧ p.2 = y) ∨ (p.1 = y ∧ p.2 = x))) ∘
            (fun w => (x, w))) = 1 := by
        have hfun : ((fun p : A × A => decide ((p.1 = x ∧ p.2 = y) ∨ (p.1 = y ∧ p.2 = x))) ∘
            (fun w => (x, w))) = fun w => decide (w = y) := by
          funext w
          simp [Function.comp, hne, Ne.symm hne]
        rw [hfun, countP_eq_count]
        exact List.count_eq_one_of_mem hndr hyr
      have hcomb : (combinations2 rest).countP
          (fun p => decide ((p.1 = x ∧ p.2 = y) ∨ (p.1 = y ∧ p.2 = x))) = 0 := by
        rw [List.countP_eq_zero]
        intro p hp
        obtain ⟨h1, h2⟩ := combinations2_mem hp
        simp only [decide_eq_true_eq]
        rintro (⟨ha, _⟩ | ⟨_, hb⟩)
        · exact hznr (ha ▸ h1)
        · exact hznr (hb ▸ h2)
      rw [hmap, hcomb]
    · rcases List.mem_cons.mp hy with hyz | hyr
      · subst hyz
        have hmap : rest.countP
            ((fun p : A × A => decide ((p.1 = x ∧ p.2 = y) ∨ (p.1 = y ∧ p.2 = x))) ∘
              (fun w => (y, w))) = 1 := by
          have hfun : ((fun p : A × A => decide ((p.1 = x ∧ p.2 = y) ∨ (p.1 = y ∧ p.2 = x))) ∘
              (fun w => (y, w))) = fun w => decide (w = x) := by
            funext w
            simp [Function.comp, hne, Ne.symm hne]
          rw [hfun, countP_eq_count]
          exact List.count_eq_one_of_mem hndr hxr
        have hcomb : (combinations2 rest).countP
            (fun p => decide ((p.1 = x ∧ p.2 = y) ∨ (p.1 = y ∧ p.2 = x))) = 0 := by
          rw [List.countP_eq_zero]
          intro p hp
          obtain ⟨h1, h2⟩ := combinations2_mem hp
          simp only [decide_eq_true_eq]
          rintro (⟨_, hb⟩ | ⟨ha, _⟩)
          · exact hznr (hb ▸ h2)
          · exact hznr (ha ▸ h1)
        rw [hmap, hcomb]
      · have hzx : z ≠ x := fun h => hznr (h ▸ hxr)
        have hzy : z ≠ y := fun h => hznr (h ▸ hyr)
        have hmap : rest.countP
            ((fun p : A × A => decide ((p.1 = x ∧ p.2 = y) ∨ (p.1 = y ∧ p.2 = x))) ∘
              (fun w => (z, w))) = 0 := by
          rw [List.countP_eq_zero]
          intro w _
          simp [Function.comp, hzx, hzy]
        rw [hmap, ih hndr hxr hyr]

/-- C5: the pairwise distance engine (`sort_by_distance`, and the pair
stream shared with `deviation_difference_vs_distance`) produces exactly
`n*(n-1)/2` distance triples for `n` rows, each unordered pair of distinct
rows appearing exactly once. -/
theorem sort_by_distance_pairs {A : Type} [DecidableEq A] (d : A → A → ℚ)
    (descending : Bool) (xs : List A) :
    (sort_by_distance d descending xs).length = xs.length * (xs.length - 1) / 2 ∧
    (pairDistances d xs).length = xs.length * (xs.length - 1) / 2 ∧
    (xs.Nodup → ∀ x ∈ xs, ∀ y ∈ xs, x ≠ y →
      (sort_by_distance d descending xs).countP
        (fun t => decide ((t.2.1 = x ∧ t.2.2 = y) ∨ (t.2.1 = y ∧ t.2.2 = x))) = 1) := by
  have h2 := combinations2_length xs
  have hlen2 : (pairDistances d xs).length = xs.length * (xs.length - 1) / 2 := by
    have hlen : (pairDistances d xs).length = (combinations2 xs).length := by
      simp [pairDistances]
    rw [hlen]
    generalize hq : xs.length * (xs.length - 1) = q at h2 ⊢
    omega
  have hsperm : (sort_by_distance d descending xs).Perm (pairDistances d xs) := by
    unfold sort_by_distance
    cases descending with
    | false => simpa using List.perm_insertionSort _ (pairDistances d xs)
    | true => simpa using List.perm_insertionSort _ (pairDistances d xs)
  refine ⟨by rw [hsperm.length_eq, hlen2], hlen2, ?_⟩
  intro hnd x hxm y hym hne
  rw [hsperm.countP_eq]
  unfold pairDistances
  rw [List.countP_map]
  exact combinations2_count hnd hxm hym hne

/-- Witness for C5 at a concrete three-row dataset. -/
theorem sort_by_distance_pairs_witness :
    (sort_by_distance (fun _ _ : ℕ => (0 : ℚ)) false [0, 1, 2]).length =
      ([0, 1, 2] : List ℕ).length * (([0, 1, 2] : List ℕ).length - 1) / 2 ∧
    (pairDistances (fun _ _ : ℕ => (0 : ℚ)) [0, 1, 2]).length =
      ([0, 1, 2] : List ℕ).length * (([0, 1, 2] : List ℕ).length - 1) / 2 ∧
    (([0, 1, 2] : List ℕ).Nodup →
      ∀ x ∈ ([0, 1, 2] : List ℕ), ∀ y ∈ ([0, 1, 2] : List ℕ), x ≠ y →
      (sort_by_distance (fun _ _ : ℕ => (0 : ℚ)) false [0, 1, 2]).countP
        (fun t => decide ((t.2.1 = x ∧ t.2.2 = y) ∨ (t.2.1 = y ∧ t.2.2 = x))) = 1) :=
  sort_by_distance_pairs _ false _

theorem take_cons_take {T : Type} (b : T) (l : List T) (k : ℕ) :
    (b :: l.take k).take k = (b :: l).take k := by
  cases k with
  | zero => simp
  | succ m =>
    simp only [List.take_succ_cons, List.take_take]
    rw [min_eq_left (by omega)]

theorem take_orderedInsert_take {T : Type} (r : T → T → Prop) [DecidableRel r] :
    ∀ (l : List T) (k : ℕ) (x : T),
      ((l.take k).orderedInsert r x).take k = (l.orderedInsert r x).take k
  | [], k, x => by simp
  | b :: l, 0, x => by simp
  | b :: l, (k+1), x => by
    simp only [List.take_succ_cons, List.orderedInsert]
    by_cases hrb : r x b
    · rw [if_pos hrb, if_pos hrb]
      simp only [List.take_succ_cons]
      rw [take_cons_take]
    · rw [if_neg hrb, if_neg hrb]
      simp only [List.take_succ_cons]
      rw [take_orderedInsert_take r l k x]

theorem foldl_boundedInsert {T : Type} (r : T → T → Prop) [DecidableRel r] (k : ℕ) :
    ∀ (xs buf : List T),
      xs.foldl (fun b x => (b.orderedInsert r x).take k) (buf.take k) =
        (xs.foldl (fun b x => b.orderedInsert r x) buf).take k
  | [], buf => rfl
  | x :: xs, buf => by
    simp only [List.foldl_cons]
    rw [take_orderedInsert_take r buf k x]
    exact foldl_boundedInsert r k xs (buf.orderedInsert r x)

theorem streamTopK_eq {T : Type} (r : T → T → Prop) [DecidableRel r] (k : ℕ)
    (xs : List T) : streamTopK r k xs = (insertAll r xs).take k := by
  unfold streamTopK insertAll
  have h := foldl_boundedInsert r k xs []
  simpa using h

theorem foldl_orderedInsert_perm {T : Type} (r : T → T → Prop) [DecidableRel r] :
    ∀ (xs buf : List T),
      (xs.foldl (fun b x => b.orderedInsert r x) buf).Perm (buf ++ xs)
  | [], buf => by simp
  | x :: xs, buf => by
    simp only [List.foldl_cons]
    refine (foldl_orderedInsert_perm r xs (buf.orderedInsert r x)).trans ?_
    refine ((List.perm_orderedInsert r x buf).append_right xs).trans ?_
    exact List.perm_middle.symm

theorem insertAll_perm {T : Type} (r : T → T → Prop) [DecidableRel r] (xs : List T) :
    (insertAll r xs).Perm xs := by
  unfold insertAll
  simpa using foldl_orderedInsert_perm r xs []

theorem foldl_orderedInsert_sorted {T : Type} (r : T → T → Prop) [DecidableRel r]
    [IsTotal T r] [IsTrans T r] :
    ∀ (xs buf : List T), List.Sorted r buf →
      List.Sorted r (xs.foldl (fun b x => b.orderedInsert r x) buf)
  | [], _, h => h
  | x :: xs, buf, h => by
    simp only [List.foldl_cons]
    exact foldl_orderedInsert_sorted r xs _ (List.Sorted.orderedInsert x buf h)

theorem insertAll_sorted {T : Type} (r : T → T → Prop) [DecidableRel r]
    [IsTotal T r] [IsTrans T r] (xs : List T) : List.Sorted r (insertAll r xs) :=
  foldl_orderedInsert_sorted r xs [] List.sorted_nil

/-- C6 (amended): for any stream of keyed items and `k ≤ n`, `algo` returns
two collections of size `k`; the least-distant side is a prefix of a sorted
permutation of the whole stream whose keys are bounded by all remaining
keys (it is exactly a set of `k` key-smallest elements), dually for the
most-distant side; and when the items are pairwise distinct with pairwise
distinct keys, the two collections are disjoint whenever `2*k ≤ n`. -/
theorem algo_topk {T B : Type} [DecidableEq T] [LinearOrder B] (key : T → B) (k : ℕ)
    (xs : List T) (hk : k ≤ xs.length) :
    (algo key k xs).1.length = k ∧
    (algo key k xs).2.length = k ∧
    (insertAll (keyLE key) xs).Perm xs ∧
    (∃ rest, insertAll (keyLE key) xs = (algo key k xs).2 ++ rest ∧
      ∀ a ∈ (algo key k xs).2, ∀ b ∈ rest, key a ≤ key b) ∧
    (∃ rest, insertAll (keyGE key) xs = (algo key k xs).1 ++ rest ∧
      ∀ a ∈ (algo key k xs).1, ∀ b ∈ rest, key b ≤ key a) ∧
    (2 * k ≤ xs.length → xs.Nodup →
      (∀ a ∈ xs, ∀ b ∈ xs, key a = key b → a = b) →
      ∀ a ∈ (algo key k xs).2, a ∉ (algo key k xs).1) := by
  have hleast : (algo key k xs).2 = (insertAll (keyLE key) xs).take k :=
    streamTopK_eq (keyLE key) k xs
  have hmost : (algo key k xs).1 = (insertAll (keyGE key) xs).take k :=
    streamTopK_eq (keyGE key) k xs
  have hpermA : (insertAll (keyLE key) xs).Perm xs := insertAll_perm (keyLE key) xs
  have hpermD : (insertAll (keyGE key) xs).Perm xs := insertAll_perm (keyGE key) xs
  have hsortA : List.Sorted (keyLE key) (insertAll (keyLE key) xs) :=
    insertAll_sorted (keyLE key) xs
  have hsortD : List.Sorted (keyGE key) (insertAll (keyGE key) xs) :=
    insertAll_sorted (keyGE key) xs
  have hlenA : (insertAll (keyLE key) xs).length = xs.length := hpermA.length_eq
  have hlenD : (insertAll (keyGE key) xs).length = xs.length := hpermD.length_eq
  refine ⟨?_, ?_, hpermA, ?_, ?_, ?_⟩
  · rw [hmost, List.length_take, hlenD]
    omega
  · rw [hleast, List.length_take, hlenA]
    omega
  · refine ⟨(insertAll (keyLE key) xs).drop k, by rw [hleast, List.take_append_drop], ?_⟩
    intro a ha b hb
    rw [hleast] at ha
    have hsplit := hsortA
    rw [← List.take_append_drop k (insertAll (keyLE key) xs)] at hsplit
    exact (List.pairwise_append.mp hsplit).2.2 a ha b hb
  · refine ⟨(insertAll (keyGE key) xs).drop k, by rw [hmost, List.take_append_drop], ?_⟩
    intro a ha b hb
    rw [hmost] at ha
    have hsplit := hsortD
    rw [← List.take_append_drop k (insertAll (keyGE key) xs)] at hsplit
    exact (List.pairwise_append.mp hsplit).2.2 a ha b hb
  · intro h2k hnd hinj a haL haM
    haveI : IsAntisymm T (fun a b : T => key b < key a) :=
      ⟨fun a b h1 h2 => absurd (h1.trans h2) (lt_irrefl _)⟩
    have hndA : (insertAll (keyLE key) xs).Nodup := hpermA.nodup_iff.mpr hnd
    have hndD : (insertAll (keyGE key) xs).Nodup := hpermD.nodup_iff.mpr hnd
    have hstrictA : (insertAll (keyLE key) xs).Pairwise (fun a b => key a < key b) := by
      refine List.Pairwise.imp_of_mem ?_ (hsortA.and hndA)
      intro c d hc hd hcd
      exact lt_of_le_of_ne hcd.1
        (fun he => hcd.2 (hinj c (hpermA.subset hc) d (hpermA.subset hd) he))
    have hstrictD : (insertAll (keyGE key) xs).Pairwise (fun a b => key b < key a) := by
      refine List.Pairwise.imp_of_mem ?_ (hsortD.and hndD)
      intro c d hc hd hcd
      exact lt_of_le_of_ne hcd.1
        (fun he => hcd.2 (hinj c (hpermD.subset hc) d (hpermD.subset hd) he.symm))
    have hrev : (insertAll (keyLE key) xs).reverse.Pairwise (fun a b => key b < key a) :=
      List.pairwise_reverse.mpr hstrictA
    have heq : insertAll (keyGE key) xs = (insertAll (keyLE key) xs).reverse :=
      List.eq_of_perm_of_sorted
        (hpermD.trans (hpermA.symm.trans (insertAll (keyLE key) xs).reverse_perm.symm))
        hstrictD hrev
    rw [hmost, heq, List.take_reverse, List.mem_reverse] at haM
    rw [hleast] at haL
    have hdisj := List.disjoint_take_drop (m := k)
      (n := (insertAll (keyLE key) xs).length - k) hndA (by omega)
    exact hdisj haL haM

/-- Counterexample input for C6 as stated: three items with equal keys and
`k = 1`; the deterministic tie-break places the same item in both
collections even though `2*k ≤ n`. -/
theorem algo_topk_counterexample :
    2 * 1 ≤ ([(0, 1), (0, 2), (0, 3)] : List (ℕ × ℕ)).length ∧
    ([(0, 1), (0, 2), (0, 3)] : List (ℕ × ℕ)).Nodup ∧
    ¬ (∀ a ∈ (algo Prod.fst 1 ([(0, 1), (0, 2), (0, 3)] : List (ℕ × ℕ))).2,
        a ∉ (algo Prod.fst 1 ([(0, 1), (0, 2), (0, 3)] : List (ℕ × ℕ))).1) := by
  refine ⟨by decide, by decide, ?_⟩
  decide

/-- Witness for C6 at a concrete three-item stream with distinct keys. -/
theorem algo_topk_witness :
    (algo Prod.fst 1 ([(3, 0), (1, 1), (2, 2)] : List (ℕ × ℕ))).1.length = 1 ∧
    (algo Prod.fst 1 ([(3, 0), (1, 1), (2, 2)] : List (ℕ × ℕ))).2.length = 1 ∧
    (insertAll (keyLE (Prod.fst : ℕ × ℕ → ℕ)) [(3, 0), (1, 1), (2, 2)]).Perm
      [(3, 0), (1, 1), (2, 2)] ∧
    (∃ rest, insertAll (keyLE (Prod.fst : ℕ × ℕ → ℕ)) [(3, 0), (1, 1), (2, 2)] =
        (algo Prod.fst 1 ([(3, 0), (1, 1), (2, 2)] : List (ℕ × ℕ))).2 ++ rest ∧
      ∀ a ∈ (algo Prod.fst 1 ([(3, 0), (1, 1), (2, 2)] : List (ℕ × ℕ))).2,
        ∀ b ∈ rest, a.1 ≤ b.1) ∧
    (∃ rest, insertAll (keyGE (Prod.fst : ℕ × ℕ → ℕ)) [(3, 0), (1, 1), (2, 2)] =
        (algo Prod.fst 1 ([(3, 0), (1, 1), (2, 2)] : List (ℕ × ℕ))).1 ++ rest ∧
      ∀ a ∈ (algo Prod.fst 1 ([(3, 0), (1, 1), (2, 2)] : List (ℕ × ℕ))).1,
        ∀ b ∈ rest, b.1 ≤ a.1) ∧
    (2 * 1 ≤ ([(3, 0), (1, 1), (2, 2)] : List (ℕ × ℕ)).length →
      ([(3, 0), (1, 1), (2, 2)] : List (ℕ × ℕ)).Nodup →
      (∀ a ∈ ([(3, 0), (1, 1), (2, 2)] : List (ℕ × ℕ)),
        ∀ b ∈ ([(3, 0), (1, 1), (2, 2)] : List (ℕ × ℕ)), a.1 = b.1 → a = b) →
      ∀ a ∈ (algo Prod.fst 1 ([(3, 0), (1, 1), (2, 2)] : List (ℕ × ℕ))).2,
        a ∉ (algo Prod.fst 1 ([(3, 0), (1, 1), (2, 2)] : List (ℕ × ℕ))).1) :=
  algo_topk Prod.fst 1 [(3, 0), (1, 1), (2, 2)] (by decide)

/-- C8: during batch ingestion, a molecule whose orbital load fails with
the not-found condition is reported with a NULL (`none`) serialized
descriptor, every other molecule keeps its serialized orbital, and the
batch completes over all rows instead of aborting. -/
theorem ingest_missing_orbital (env : IngestEnv) :
    ∀ (bs ps : List (String × ℚ)),
      bs.length ≤ ps.length →
      bs.map Prod.fst = (ps.map Prod.fst).take bs.length →
      (∀ b ∈ bs, ∃ s fp, env.smilesDict b.1 = some s ∧
        env.fingerprintFromSmiles s = some fp) →
      ∃ rows, ingestRows env bs ps = .ok rows ∧ rows.length = bs.length ∧
        ∀ i, i < bs.length →
          ∃ b r, bs[i]? = some b ∧ rows[i]? = some r ∧ r.mol_id = b.1 ∧
            ((∃ e, env.orbitalFor b.1 = .error e ∧
                r.serialized_molecular_orbital = none) ∨
             (∃ s, env.orbitalFor b.1 = .ok s ∧
                r.serialized_molecular_orbital = some s)) := by
  intro bs
  induction bs with
  | nil =>
    intro ps _ _ _
    exact ⟨[], rfl, rfl, fun i hi => absurd hi (by simp)⟩
  | cons b bs ih =>
    obtain ⟨bid, eb⟩ := b
    intro ps hlen hid hsm
    cases ps with
    | nil => simp at hlen
    | cons p ps =>
      obtain ⟨pid, ep⟩ := p
      obtain ⟨hbp, hid'⟩ : bid = pid ∧ bs.map Prod.fst = (ps.map Prod.fst).take bs.length := by
        simpa using hid
      obtain ⟨s, fp, hs, hfp⟩ := hsm (bid, eb) (by simp)
      have hs' : env.smilesDict bid = some s := hs
      obtain ⟨rows', hok, hlen', hidx⟩ :=
        ih ps (by simpa using hlen) hid' (fun q hq => hsm q (by simp [hq]))
      refine ⟨⟨bid, env.conv ep, env.conv eb, s, fp,
          match env.orbitalFor bid with
          | .ok s' => some s'
          | .error _ => none⟩ :: rows', ?_, by simp [hlen'], ?_⟩
      · simp only [ingestRows]
        rw [if_neg (by simp [hbp])]
        rw [hs']
        dsimp only
        rw [hfp]
        dsimp only
        rw [hok]
      · intro i hi
        cases i with
        | zero =>
          refine ⟨(bid, eb), ⟨bid, env.conv ep, env.conv eb, s, fp,
              match env.orbitalFor bid with
              | .ok s' => some s'
              | .error _ => none⟩, by simp, by simp, rfl, ?_⟩
          cases horb : env.orbitalFor bid with
          | ok s' =>
            right
            exact ⟨s', rfl, by simp [horb]⟩
          | error e =>
            left
            exact ⟨e, rfl, by simp [horb]⟩
        | succ i =>
          have hi' : i < bs.length := by simpa using hi
          obtain ⟨b', r', hb', hr', hmol, hmo⟩ := hidx i hi'
          exact ⟨b', r', by simpa using hb', by simpa using hr', hmol, hmo⟩

/-- Witness for C8: a two-molecule batch in which molecule "A" has no
orbital file still ingests both rows, with a NULL descriptor for "A". -/
theorem ingest_missing_orbital_witness :
    ∃ rows, ingestRows exampleEnv [("A", 1), ("B", 2)] [("A", 10), ("B", 20)] = .ok rows ∧
      rows.length = ([("A", 1), ("B", 2)] : List (String × ℚ)).length ∧
      ∀ i, i < ([("A", 1), ("B", 2)] : List (String × ℚ)).length →
        ∃ b r, ([("A", 1), ("B", 2)] : List (String × ℚ))[i]? = some b ∧
          rows[i]? = some r ∧ r.mol_id = b.1 ∧
          ((∃ e, exampleEnv.orbitalFor b.1 = .error e ∧
              r.serialized_molecular_orbital = none) ∨
           (∃ s, exampleEnv.orbitalFor b.1 = .ok s ∧
              r.serialized_molecular_orbital = some s)) :=
  ingest_missing_orbital exampleEnv [("A", 1), ("B", 2)] [("A", 10), ("B", 20)]
    (by simp) (by simp) (fun b _ => ⟨b.1, [true], rfl, rfl⟩)

/-- C9: during batch ingestion, the first row position at which the BLYP
molecule id differs from the parallel PM7 molecule id makes the whole run
abort with the mismatch error, rather than skipping or repairing the
row. -/
theorem ingest_mismatch_aborts (env : IngestEnv) :
    ∀ (i : ℕ) (bs ps : List (String × ℚ)),
      i < bs.length → i < ps.length →
      (bs.map Prod.fst).take i = (ps.map Prod.fst).take i →
      (∀ b p, bs[i]? = some b → ps[i]? = some p → b.1 ≠ p.1) →
      (∀ b ∈ bs, ∃ s fp, env.smilesDict b.1 = some s ∧
        env.fingerprintFromSmiles s = some fp) →
      ∃ b p, bs[i]? = some b ∧ ps[i]? = some p ∧
        ingestRows env bs ps = .error (.mismatch b.1 p.1) := by
  intro i
  induction i with
  | zero =>
    intro bs ps hib hip hpre hne hsm
    cases bs with
    | nil => simp at hib
    | cons b bs =>
      cases ps with
      | nil => simp at hip
      | cons p ps =>
        obtain ⟨bid, eb⟩ := b
        obtain ⟨pid, ep⟩ := p
        have hne0 : bid ≠ pid := hne (bid, eb) (pid, ep) (by simp) (by simp)
        refine ⟨(bid, eb), (pid, ep), by simp, by simp, ?_⟩
        simp only [ingestRows]
        rw [if_pos hne0]
  | succ i ih =>
    intro bs ps hib hip hpre hne hsm
    cases bs with
    | nil => simp at hib
    | cons b bs =>
      cases ps with
      | nil => simp at hip
      | cons p ps =>
        obtain ⟨bid, eb⟩ := b
        obtain ⟨pid, ep⟩ := p
        obtain ⟨hbp, hpre'⟩ : bid = pid ∧
            (bs.map Prod.fst).take i = (ps.map Prod.fst).take i := by
          simpa using hpre
        obtain ⟨s, fp, hs, hfp⟩ := hsm (bid, eb) (by simp)
        have hs' : env.smilesDict bid = some s := hs
        obtain ⟨b', p', hb', hp', herr⟩ := ih bs ps (by simpa using hib)
          (by simpa using hip) hpre'
          (fun b p hb hp => hne b p (by simpa using hb) (by simpa using hp))
          (fun q hq => hsm q (by simp [hq]))
        refine ⟨b', p', by simpa using hb', by simpa using hp', ?_⟩
        simp only [ingestRows]
        rw [if_neg (by simp [hbp])]
        rw [hs']
        dsimp only
        rw [hfp]
        dsimp only
        rw [herr]

/-- Witness for C9: ids agree at row 0 and differ at row 1 ("B" vs "C"),
so ingestion returns the fatal mismatch error. -/
theorem ingest_mismatch_aborts_witness :
    ∃ b p, ([("A", 1), ("B", 2)] : List (String × ℚ))[1]? = some b ∧
      ([("A", 10), ("C", 20)] : List (String × ℚ))[1]? = some p ∧
      ingestRows exampleEnv [("A", 1), ("B", 2)] [("A", 10), ("C", 20)] =
        .error (.mismatch b.1 p.1) :=
  ingest_mismatch_aborts exampleEnv 1 [("A", 1), ("B", 2)] [("A", 10), ("C", 20)]
    (by simp) (by simp) rfl
    (fun b p hb hp => by
      simp only [List.getElem?_cons_succ, List.getElem?_cons_zero, Option.some.injEq] at hb hp
      rw [← hb, ← hp]
      decide)
    (fun b _ => ⟨b.1, [true], rfl, rfl⟩)

/-- C10: for a mol_id with no matching row, `get_row_from_mol_id` (and
therefore `get_dE_from_mol_id`) fails with the uncaught IndexError
(modelled as `none`) instead of a defined not-found value; when one or
more rows match, the first match is returned (with `get_dE` its
`E_blyp - E_pm7`), the duplicate case merely printing a warning. -/
theorem get_row_from_mol_id_spec (table : List DatasetItem) (mol_id : String) :
    ((∀ r ∈ table, r.mol_id ≠ mol_id) →
      get_row_from_mol_id table mol_id = none ∧
      get_dE_from_mol_id table mol_id = none) ∧
    (∀ r rest, table.filter (fun x => decide (x.mol_id = mol_id)) = r :: rest →
      get_row_from_mol_id table mol_id = some r ∧
      get_dE_from_mol_id table mol_id = some (r.E_blyp - r.E_pm7) ∧
      (rest ≠ [] → duplicate_warning table mol_id = true)) := by
  constructor
  · intro hnone
    have hfil : table.filter (fun x => decide (x.mol_id = mol_id)) = [] := by
      rw [List.filter_eq_nil_iff]
      intro a ha
      simpa using hnone a ha
    constructor
    · rw [get_row_from_mol_id, hfil]
      rfl
    · rw [get_dE_from_mol_id, get_row_from_mol_id, hfil]
      rfl
  · intro r rest hfil
    have h1 : get_row_from_mol_id table mol_id = some r := by
      rw [get_row_from_mol_id, hfil]
      rfl
    refine ⟨h1, by rw [get_dE_from_mol_id, h1]; rfl, ?_⟩
    intro hrest
    have hpos : 0 < rest.length := List.length_pos.mpr hrest
    simp only [duplicate_warning, hfil, List.length_cons, decide_eq_true_eq]
    omega

/-- Witness for C10 at a table holding a duplicated molecule id. -/
theorem get_row_from_mol_id_spec_witness :
    ((∀ r ∈ exampleTable, r.mol_id ≠ "ZINC1") →
      get_row_from_mol_id exampleTable "ZINC1" = none ∧
      get_dE_from_mol_id exampleTable "ZINC1" = none) ∧
    (∀ r rest, exampleTable.filter (fun x => decide (x.mol_id = "ZINC1")) = r :: rest →
      get_row_from_mol_id exampleTable "ZINC1" = some r ∧
      get_dE_from_mol_id exampleTable "ZINC1" = some (r.E_blyp - r.E_pm7) ∧
      (rest ≠ [] → duplicate_warning exampleTable "ZINC1" = true)) :=
  get_row_from_mol_id_spec exampleTable "ZINC1"
